import Mathlib

/-!
# Verification of the list-vs-vector benchmark harness

Shallow embedding of the ordered-sequence benchmark harness
(`lvv.h` / `lvv.cpp`), followed by theorems about its behaviour.

Containers `std::vector<int>` and `std::list<int>` are both modelled as
`List Int` (sequences of machine integers whose values fit in `int`; no
arithmetic is performed on the stored values, so overflow does not arise).
Indices (`size_t`) are modelled as `Nat`.  Fallible behaviour (a failing
`assert`, division by zero) is modelled with `Option`: `none` means the
execution aborts (checked build) or is undefined.
-/

/-! ## utils (lvv.h) -/

/-- `utils::insert_in_numerical_order(std::vector<int>&, int)` (lvv.h:60-70):
if the vector is empty, push back `n`; otherwise scan from the beginning
while the current value is `< n` and insert `n` before the first position
whose value is not `< n` (possibly the end). -/
def insert_in_numerical_order_vec : List Int → Int → List Int
  | [], n => [n]
  | x :: xs, n => if x < n then x :: insert_in_numerical_order_vec xs n else n :: x :: xs

/-- `utils::insert_in_numerical_order(std::list<int>&, int)` (lvv.h:78-88):
same explicit forward scan, on the node-backed container. -/
def insert_in_numerical_order_list : List Int → Int → List Int
  | [], n => [n]
  | x :: xs, n => if x < n then x :: insert_in_numerical_order_list xs n else n :: x :: xs

/-! ## The two adaptors (lvv.h:160-202) -/

/-- `VectorAdaptor::insert_numerical` (lvv.h:192-195). -/
def VectorAdaptor.insert_numerical (v : List Int) (n : Int) : List Int :=
  insert_in_numerical_order_vec v n

/-- `VectorAdaptor::remove` (lvv.h:198): `v.erase(v.begin() + i)`, i.e. delete
the element at index `i`.  For `i ≥ size()` the C++ is undefined; the model
returns the vector unchanged there (all claims restrict to valid indices). -/
def VectorAdaptor.remove (v : List Int) (i : Nat) : List Int :=
  v.eraseIdx i

/-- `ListAdaptor::insert_numerical` (lvv.h:166-169). -/
def ListAdaptor.insert_numerical (l : List Int) (n : Int) : List Int :=
  insert_in_numerical_order_list l n

/-- `ListAdaptor::remove` (lvv.h:172-177): advance an iterator `i` steps from
`begin()` by an explicit loop, then erase there.  For `i ≥ size()` the C++ is
undefined; the model returns the list unchanged there. -/
def ListAdaptor.remove : List Int → Nat → List Int
  | [], _ => []
  | _ :: xs, 0 => xs
  | x :: xs, i + 1 => x :: ListAdaptor.remove xs i

/-- The dynamic type behind the `IntegerSequence&` interface (lvv.h:95):
exactly two implementations exist. -/
inductive Variant where
  | vec
  | lst
deriving DecidableEq

/-- Virtual dispatch of `insert_numerical` over the two adaptors. -/
def seqInsert : Variant → List Int → Int → List Int
  | .vec, s, n => VectorAdaptor.insert_numerical s n
  | .lst, s, n => ListAdaptor.insert_numerical s n

/-- Virtual dispatch of `remove` over the two adaptors. -/
def seqRemove : Variant → List Int → Nat → List Int
  | .vec, s, i => VectorAdaptor.remove s i
  | .lst, s, i => ListAdaptor.remove s i

/-! ## Benchmark core (lvv.cpp:135-144) -/

/-- `test_n_core_` (lvv.cpp:135-144).  `univ` is the iteration order of the
global `INT_SET`; the function inserts the first `removal_indices.size()`
values of it, then removes the plan's indices in order.  The
`assert(INT_SET.size() >= num_vals)` (lvv.cpp:139) is modelled by returning
`none` when the universe is too small. -/
def test_n_core (vt : Variant) (seq0 : List Int) (univ : List Int) (plan : List Nat) :
    Option (List Int) :=
  if univ.length < plan.length then none
  else some (plan.foldl (seqRemove vt) ((univ.take plan.length).foldl (seqInsert vt) seq0))

/-- One operation performed by the benchmark core: `inl v` is
`insert_numerical(v)`, `inr i` is `remove(i)`. -/
def coreOps (univ : List Int) (plan : List Nat) : List (Sum Int Nat) :=
  (univ.take plan.length).map Sum.inl ++ plan.map Sum.inr

/-- Apply one core operation to a sequence state. -/
def seqStep (vt : Variant) (s : List Int) : Sum Int Nat → List Int
  | Sum.inl n => seqInsert vt s n
  | Sum.inr i => seqRemove vt s i

/-- The successive states a sequence passes through while executing a list of
core operations (one state per operation, in order). -/
def coreStates (vt : Variant) : List Int → List (Sum Int Nat) → List (List Int)
  | _, [] => []
  | s, op :: rest =>
    let s2 := seqStep vt s op
    s2 :: coreStates vt s2 rest

/-- The full trace of intermediate value sequences of one benchmark-core run
started on a fresh (empty) sequence. -/
def coreTrace (vt : Variant) (univ : List Int) (plan : List Nat) : List (List Int) :=
  coreStates vt [] (coreOps univ plan)

/-- A removal plan is valid for a sequence of size `sz` when each entry, in
order, is a legal index for the size current at the moment it is consumed. -/
def validPlan : Nat → List Nat → Bool
  | _, [] => true
  | sz, i :: rest => decide (i < sz) && validPlan (sz - 1) rest

/-! ## Removal-plan generation and the timing loop (lvv.cpp:158-185) -/

/-- Modelled from the spec: `utils::random_size_t`, called at lvv.cpp:169, has
no definition under src/ (lvv.h only defines `random_int`).  Spec §4.3 says
the generator "draws an index uniformly from [0, n − 1 − i]"; a draw is
modelled as an oracle `rand : Nat → Nat → Nat → Nat` giving the value of the
step-`i` call `random_size_t(lo, hi)`, and this contract states the one
property a uniform draw guarantees: the result lies in `[lo, hi]`. -/
def RandInRange (rand : Nat → Nat → Nat → Nat) : Prop :=
  ∀ i lo hi, lo ≤ hi → lo ≤ rand i lo hi ∧ rand i lo hi ≤ hi

/-- The removal-index vector built by one iteration of `test_n_`
(lvv.cpp:167-170).  `vector<size_t> removal_indices{num_vals}` is
list-initialization: it constructs the one-element vector `[num_vals]`.
The loop `for (size_t back = num_vals - 1; back < SIZE_MAX; back--)` then
appends `random_size_t(0, back)` for `back = num_vals - 1, …, 0`, i.e. for
step `i` a draw bounded by `num_vals - 1 - i`. -/
def removal_indices (num_vals : Nat) (rand : Nat → Nat → Nat → Nat) : List Nat :=
  num_vals :: (List.range num_vals).map (fun i => rand i 0 (num_vals - 1 - i))

/-- The trace of benchmark-core executions performed by `test_n_`
(lvv.cpp:163-180): each of the `num_runs` loop iterations reseeds, builds a
fresh plan and performs exactly one `test_n_core_` call between the two
clock readings, so each execution's duration is accumulated into `avg`
(`measured = true`).  No core execution happens outside the loop.
`rand r` is the draw oracle produced by the reseed of run `r`. -/
def worker_events (num_vals num_runs : Nat)
    (rand : Nat → Nat → Nat → Nat → Nat) : List (List Nat × Bool) :=
  (List.range num_runs).map (fun r => (removal_indices num_vals (rand r), true))

/-- `avg / num_runs` (lvv.cpp:182): integer division of the accumulated
duration by the repeat count, with no guard.  Division by zero is undefined
behaviour in C++, modelled as `none`. -/
def duration_div (acc num_runs : Nat) : Option Nat :=
  if num_runs = 0 then none else some (acc / num_runs)

/-- `test_n_` (lvv.cpp:158-185) for one worker: `num_runs` iterations, each
reseeding (`rand r`), building `removal_indices`, checking the sanity assert
`removal_indices.at(size - 1) == 0` (lvv.cpp:173, `none` on failure), then
running the core on the same sequence object (reused across runs) and
accumulating the run's duration `dur r`; finally the mean `avg / num_runs`.
`dur` is the wall-clock oracle: the measured duration of run `r`. -/
def worker (vt : Variant) (univ : List Int) (num_vals num_runs : Nat)
    (rand : Nat → Nat → Nat → Nat → Nat) (dur : Nat → Nat) : Option Nat :=
  let step : Option (List Int × Nat) → Nat → Option (List Int × Nat) := fun st r =>
    st.bind (fun sa =>
      let plan := removal_indices num_vals (rand r)
      if plan.getLast? = some 0 then
        match test_n_core vt sa.1 univ plan with
        | none => none
        | some s2 => some (s2, sa.2 + dur r)
      else none)
  ((List.range num_runs).foldl step (some ([], 0))).bind
    (fun sa => duration_div sa.2 num_runs)

/-- `test_n` (lvv.cpp:197-218): assert `INT_SET.size() >= num_vals`
(lvv.cpp:200, `none` on failure), then run the vector worker and the list
worker (concurrently in C++; their draw and duration oracles are passed
separately) and return the pair of means once both are available. -/
def test_n (univ : List Int) (num_vals num_runs : Nat)
    (rand_v rand_l : Nat → Nat → Nat → Nat → Nat) (dur_v dur_l : Nat → Nat) :
    Option (Nat × Nat) :=
  if univ.length < num_vals then none
  else
    match worker .vec univ num_vals num_runs rand_v dur_v,
        worker .lst univ num_vals num_runs rand_l dur_l with
    | some a, some b => some (a, b)
    | _, _ => none

/-! ## Randomness source identity (lvv.h:12-16, lvv.cpp:158-218) -/

/-- The random-generator objects that exist in the program.  lvv.h:16 declares
exactly one: the global `std::mt19937 gen`; no other generator object is ever
constructed by the harness (`std::random_device` instances only produce
seeds). -/
inductive RngSource where
  | globalGen
deriving DecidableEq

/-- The generator a `test_n_` worker draws from and reseeds: both the reseed
`gen.seed(...)` (lvv.cpp:165) and every `utils::random_size_t` draw
(lvv.cpp:169, drawing via the distribution applied to `gen` as
`utils::random_int` does at lvv.h:30-34) target the global `gen`,
independently of which adaptor the worker is timing. -/
def worker_rng_source (_vt : Variant) : RngSource := RngSource.globalGen

/-- The pair of generator instances used by the two workers spawned by
`test_n` (lvv.cpp:211-212): both threads execute `test_n_`. -/
def test_n_rng_sources : RngSource × RngSource :=
  (worker_rng_source .vec, worker_rng_source .lst)

/-! ## CLI parsing (lvv.cpp:245-286) -/

/-- `MAX_TESTS` (lvv.cpp:73). -/
def MAX_TESTS : Int := 1000000

/-- `DEFAULT_NUM_TESTS` (lvv.cpp:74). -/
def DEFAULT_NUM_TESTS : Nat := 10000

/-- `INT_MIN` for a 32-bit `int` (climits). -/
def INT_MIN : Int := -2147483648

/-- `INT_MAX` for a 32-bit `int` (climits). -/
def INT_MAX : Int := 2147483647

/-- The ways `std::stoi` can throw. -/
inductive StoiError where
  | invalidArgument
  | outOfRange
deriving DecidableEq

/-- Whitespace skipped by `std::stoi` (via `strtol` / `isspace`). -/
def isSpaceChar (c : Char) : Bool :=
  c = ' ' || c = '\t' || c = '\n' || c = '\r' || c = '\x0b' || c = '\x0c'

/-- `std::stoi(s)` with base 10: skip leading whitespace, read an optional
sign, then the longest digit run.  No digits → `invalid_argument`; a value
outside `int` range → `out_of_range`; otherwise the parsed value — any
trailing non-digit characters are ignored. -/
def stoi (s : String) : Except StoiError Int :=
  let cs := s.toList.dropWhile isSpaceChar
  let signAndRest : Bool × List Char :=
    match cs with
    | '-' :: rest => (true, rest)
    | '+' :: rest => (false, rest)
    | _ => (false, cs)
  let ds := signAndRest.2.takeWhile Char.isDigit
  if ds.isEmpty then .error .invalidArgument
  else
    let m : Nat := ds.foldl (fun a c => a * 10 + (c.toNat - 48)) 0
    let v : Int := if signAndRest.1 then -(m : Int) else (m : Int)
    if v < INT_MIN ∨ v > INT_MAX then .error .outOfRange
    else .ok v

/-- The distinct failure exits of `lvv_parse_args` / `main`:
`assertFailure` for `argc < 1` (lvv.cpp:250), `usageMessage` for the usage
text on `cerr` + `exit(1)` (lvv.cpp:255-257), `negativeMessage` and
`tooLargeMessage` for the bound errors on `cerr` + `exit(1)`
(lvv.cpp:263-271), and `uncaughtException` for an exception thrown by
`stoi` escaping `main` (`std::terminate`, no usage message). -/
inductive CliError where
  | assertFailure
  | usageMessage
  | negativeMessage
  | tooLargeMessage
  | uncaughtException
deriving DecidableEq

/-- `lvv_parse_args` (lvv.cpp:245-274). -/
def lvv_parse_args (argv : List String) : Except CliError Nat :=
  match argv with
  | [] => .error .assertFailure
  | [_] => .ok DEFAULT_NUM_TESTS
  | [_, a] =>
    match stoi a with
    | .error _ => .error .uncaughtException
    | .ok t =>
      if t < 0 then .error .negativeMessage
      else if t > MAX_TESTS then .error .tooLargeMessage
      else .ok t.toNat
  | _ => .error .usageMessage

/-- `main` (lvv.cpp:276-286) up to its output: parse the arguments — any
parse failure exits before `out.csv` is opened, so nothing is written — then
write the header line followed by one row per tested N (the rows depend on
measured timings, abstracted as `rows`). -/
def lvv_main (argv : List String) (rows : Nat → List String) :
    Except CliError (List String) :=
  (lvv_parse_args argv).map (fun n => "x,vectime,listtime,vecgain" :: rows n)

deriving instance DecidableEq for Except

/-- A concrete draw oracle: every call returns its upper bound.  It satisfies
the `RandInRange` contract, so it describes a realizable run. -/
def rand0 : Nat → Nat → Nat → Nat := fun _ _ hi => hi

/-! ## Helper lemmas -/

theorem insert_list_eq_vec (v : List Int) (n : Int) :
    insert_in_numerical_order_list v n = insert_in_numerical_order_vec v n := by
  induction v with
  | nil => rfl
  | cons x xs ih =>
    simp only [insert_in_numerical_order_list, insert_in_numerical_order_vec, ih]

theorem length_insert_vec (v : List Int) (n : Int) :
    (insert_in_numerical_order_vec v n).length = v.length + 1 := by
  induction v with
  | nil => rfl
  | cons x xs ih =>
    by_cases h : x < n
    · simp [insert_in_numerical_order_vec, h, ih]
    · simp [insert_in_numerical_order_vec, h]

theorem mem_insert_vec (v : List Int) (n a : Int) :
    a ∈ insert_in_numerical_order_vec v n ↔ a = n ∨ a ∈ v := by
  induction v with
  | nil => simp [insert_in_numerical_order_vec]
  | cons x xs ih =>
    rw [insert_in_numerical_order_vec]
    by_cases h : x < n
    · rw [if_pos h]
      simp only [List.mem_cons, ih]
      tauto
    · rw [if_neg h]
      simp only [List.mem_cons]

theorem sorted_insert_vec (v : List Int) (n : Int) (hs : v.Sorted (· < ·))
    (hn : n ∉ v) : (insert_in_numerical_order_vec v n).Sorted (· < ·) := by
  induction v with
  | nil => simp [insert_in_numerical_order_vec]
  | cons x xs ih =>
    rw [List.sorted_cons] at hs
    obtain ⟨hx, hxs⟩ := hs
    have hnx : n ≠ x := by intro he; exact hn (by simp [he])
    have hnxs : n ∉ xs := fun hmem => hn (by simp [hmem])
    by_cases h : x < n
    · rw [insert_in_numerical_order_vec, if_pos h, List.sorted_cons]
      refine ⟨?_, ih hxs hnxs⟩
      intro b hb
      rcases (mem_insert_vec xs n b).mp hb with rfl | hb
      · exact h
      · exact hx b hb
    · have hlt : n < x := lt_of_le_of_ne (not_lt.mp h) hnx
      rw [insert_in_numerical_order_vec, if_neg h, List.sorted_cons]
      refine ⟨?_, List.sorted_cons.mpr ⟨hx, hxs⟩⟩
      intro b hb
      rcases List.mem_cons.mp hb with rfl | hb
      · exact hlt
      · exact lt_trans hlt (hx b hb)

theorem seqInsert_funeq (vt : Variant) :
    seqInsert vt = insert_in_numerical_order_vec := by
  funext s n
  cases vt
  · rfl
  · exact insert_list_eq_vec s n

theorem ListAdaptor_remove_eq_eraseIdx (l : List Int) (i : Nat) :
    ListAdaptor.remove l i = l.eraseIdx i := by
  induction l generalizing i with
  | nil => rfl
  | cons x xs ih =>
    cases i with
    | zero => rfl
    | succ j => simp [ListAdaptor.remove, List.eraseIdx, ih]

theorem seqRemove_funeq (vt : Variant) :
    seqRemove vt = fun s i => s.eraseIdx i := by
  funext s i
  cases vt
  · rfl
  · exact ListAdaptor_remove_eq_eraseIdx s i

theorem length_eraseIdx_of_lt (l : List Int) (i : Nat) (h : i < l.length) :
    (l.eraseIdx i).length = l.length - 1 := by
  induction l generalizing i with
  | nil => simp at h
  | cons x xs ih =>
    cases i with
    | zero => simp [List.eraseIdx]
    | succ j =>
      have hj : j < xs.length := by simpa using h
      simp [List.eraseIdx, ih j hj]
      omega

theorem eraseIdx_eq_take_drop (l : List Int) (i : Nat) :
    l.eraseIdx i = l.take i ++ l.drop (i + 1) := by
  induction l generalizing i with
  | nil => simp
  | cons x xs ih =>
    cases i with
    | zero => simp [List.eraseIdx]
    | succ j => simp [List.eraseIdx, ih j]

theorem length_foldl_insert_vec (vals : List Int) :
    ∀ acc : List Int,
      (vals.foldl insert_in_numerical_order_vec acc).length =
        acc.length + vals.length := by
  induction vals with
  | nil => intro acc; simp
  | cons v vs ih =>
    intro acc
    simp only [List.foldl_cons, ih, length_insert_vec, List.length_cons]
    omega

theorem mem_foldl_insert_vec (vals : List Int) :
    ∀ (acc : List Int) (a : Int),
      a ∈ vals.foldl insert_in_numerical_order_vec acc ↔ a ∈ acc ∨ a ∈ vals := by
  induction vals with
  | nil => intro acc a; simp
  | cons v vs ih =>
    intro acc a
    simp only [List.foldl_cons, ih, mem_insert_vec, List.mem_cons]
    tauto

theorem sorted_foldl_insert_vec (vals : List Int) :
    ∀ acc : List Int, acc.Sorted (· < ·) → vals.Nodup →
      (∀ v ∈ vals, v ∉ acc) →
      (vals.foldl insert_in_numerical_order_vec acc).Sorted (· < ·) := by
  induction vals with
  | nil => intro acc hacc _ _; simpa using hacc
  | cons v vs ih =>
    intro acc hacc hnd hdisj
    rw [List.nodup_cons] at hnd
    simp only [List.foldl_cons]
    refine ih _ (sorted_insert_vec acc v hacc (hdisj v (by simp))) hnd.2 ?_
    intro w hw hwmem
    rcases (mem_insert_vec acc v w).mp hwmem with rfl | hwacc
    · exact hnd.1 hw
    · exact hdisj w (by simp [hw]) hwacc

theorem foldl_eraseIdx_empty (plan : List Nat) :
    ∀ s : List Int, validPlan s.length plan = true → plan.length = s.length →
      plan.foldl (fun t i => t.eraseIdx i) s = [] := by
  induction plan with
  | nil =>
    intro s _ hlen
    have : s = [] := List.length_eq_zero.mp hlen.symm
    simp [this]
  | cons i rest ih =>
    intro s hv hlen
    simp only [validPlan, Bool.and_eq_true, decide_eq_true_eq] at hv
    obtain ⟨hi, hrest⟩ := hv
    simp only [List.foldl_cons]
    have hlen2 : (s.eraseIdx i).length = s.length - 1 := length_eraseIdx_of_lt s i hi
    refine ih (s.eraseIdx i) ?_ ?_
    · rw [hlen2]; exact hrest
    · rw [hlen2]
      simp only [List.length_cons] at hlen
      omega

theorem core_empty_of_valid (vt : Variant) (univ : List Int) (plan : List Nat)
    (hle : plan.length ≤ univ.length) (hv : validPlan plan.length plan = true) :
    test_n_core vt [] univ plan = some [] := by
  unfold test_n_core
  rw [if_neg (by omega : ¬ univ.length < plan.length)]
  have hlen_ins :
      ((univ.take plan.length).foldl (seqInsert vt) []).length = plan.length := by
    rw [seqInsert_funeq vt, length_foldl_insert_vec]
    simp [List.length_take]
    omega
  have hempty :
      plan.foldl (seqRemove vt) ((univ.take plan.length).foldl (seqInsert vt) []) = [] := by
    rw [seqRemove_funeq vt]
    exact foldl_eraseIdx_empty plan _ (by rw [hlen_ins]; exact hv) (by rw [hlen_ins])
  rw [hempty]

theorem seqStep_variant_eq (vt : Variant) (s : List Int) (op : Sum Int Nat) :
    seqStep vt s op = seqStep .vec s op := by
  cases op with
  | inl n => simp only [seqStep, seqInsert_funeq]
  | inr i => simp only [seqStep, seqRemove_funeq]

theorem coreStates_variant_eq (vt : Variant) (ops : List (Sum Int Nat)) :
    ∀ s : List Int, coreStates vt s ops = coreStates .vec s ops := by
  induction ops with
  | nil => intro s; rfl
  | cons op rest ih =>
    intro s
    simp only [coreStates, seqStep_variant_eq vt s op, ih]

/-! ## Claim theorems -/

/-- C1: the removal plan generated for one measured repetition does NOT have
exactly `n` entries.  `vector<size_t> removal_indices{num_vals}` (lvv.cpp:167)
list-initializes the plan to the one-element vector `[num_vals]`, and the loop
appends `n` more draws, so at `num_vals = 2` (draws at their maximal allowed
values, an execution realizable under the `RandInRange` contract) the plan is
`[2, 1, 0]`: length 3 instead of 2, and its entry 0 is `2`, outside the
claimed range `[0, n - 1 - 0] = [0, 1]`. -/
theorem removal_indices_wrong_length :
    removal_indices 2 rand0 = [2, 1, 0]
    ∧ (removal_indices 2 rand0).length = 3
    ∧ ¬ (removal_indices 2 rand0).length = 2 := by decide

/-- C2: for every universe prefix and removal plan, the benchmark core passes
the array-backed and the node-backed adaptor through the identical sequence of
intermediate value sequences, and (when the plan is consumed against valid
current sizes and the universe is large enough for the core's assert) both
end empty. -/
theorem coreTrace_refinement (univ : List Int) (plan : List Nat) :
    coreTrace .vec univ plan = coreTrace .lst univ plan
    ∧ (plan.length ≤ univ.length → validPlan plan.length plan = true →
        test_n_core .vec [] univ plan = some []
        ∧ test_n_core .lst [] univ plan = some []) := by
  refine ⟨?_, fun hle hv =>
    ⟨core_empty_of_valid .vec univ plan hle hv,
     core_empty_of_valid .lst univ plan hle hv⟩⟩
  unfold coreTrace
  exact (coreStates_variant_eq .lst (coreOps univ plan) []).symm

/-- Witness for C2 at the spec's worked example. -/
theorem coreTrace_refinement_witness :
    coreTrace .vec [5, 1, 4, 2] [1, 2, 0, 0] = coreTrace .lst [5, 1, 4, 2] [1, 2, 0, 0]
    ∧ test_n_core .vec [] [5, 1, 4, 2] [1, 2, 0, 0] = some []
    ∧ test_n_core .lst [] [5, 1, 4, 2] [1, 2, 0, 0] = some [] :=
  ⟨(coreTrace_refinement [5, 1, 4, 2] [1, 2, 0, 0]).1,
   ((coreTrace_refinement [5, 1, 4, 2] [1, 2, 0, 0]).2 (by decide) (by decide)).1,
   ((coreTrace_refinement [5, 1, 4, 2] [1, 2, 0, 0]).2 (by decide) (by decide)).2⟩

/-- C3: for both variants, any universe large enough for the core's assert,
and any removal plan each of whose entries is a valid index for the current
size at the moment it is consumed, the benchmark core (phase 1: insert the
first `plan.length` universe values; phase 2: remove the plan's indices in
order) leaves the sequence empty. -/
theorem core_ends_empty (vt : Variant) (univ : List Int) (plan : List Nat)
    (hle : plan.length ≤ univ.length) (hv : validPlan plan.length plan = true) :
    test_n_core vt [] univ plan = some [] :=
  core_empty_of_valid vt univ plan hle hv

/-- Witness for C3. -/
theorem core_ends_empty_witness :
    ([0, 0] : List Nat).length ≤ ([10, 7] : List Int).length
    ∧ validPlan ([0, 0] : List Nat).length [0, 0] = true
    ∧ test_n_core .lst [] [10, 7] [0, 0] = some [] :=
  ⟨by decide, by decide, core_ends_empty .lst [10, 7] [0, 0] (by decide) (by decide)⟩

/-- C4: for both variants, inserting any `k` distinct values one at a time via
`insert_numerical` yields a sequence of size `k` that is strictly ascending;
and the worked example `5, 1, 4, 2` passes through the successive states
`[5]`, `[1,5]`, `[1,4,5]`, `[1,2,4,5]` on both variants. -/
theorem insert_numerical_sorted :
    (∀ (vt : Variant) (vals : List Int), vals.Nodup →
        (vals.foldl (seqInsert vt) []).length = vals.length
        ∧ (vals.foldl (seqInsert vt) []).Sorted (· < ·))
    ∧ coreStates .vec [] (([5, 1, 4, 2] : List Int).map Sum.inl) =
        [[5], [1, 5], [1, 4, 5], [1, 2, 4, 5]]
    ∧ coreStates .lst [] (([5, 1, 4, 2] : List Int).map Sum.inl) =
        [[5], [1, 5], [1, 4, 5], [1, 2, 4, 5]] := by
  refine ⟨?_, by decide, by decide⟩
  intro vt vals hnd
  rw [seqInsert_funeq vt]
  refine ⟨by rw [length_foldl_insert_vec]; simp, ?_⟩
  exact sorted_foldl_insert_vec vals [] (by simp) hnd (by simp)

/-- Witness for C4. -/
theorem insert_numerical_sorted_witness :
    List.Nodup ([5, 1, 4, 2] : List Int)
    ∧ (([5, 1, 4, 2] : List Int).foldl (seqInsert .vec) []).length =
        ([5, 1, 4, 2] : List Int).length
    ∧ (([5, 1, 4, 2] : List Int).foldl (seqInsert .vec) []).Sorted (· < ·) :=
  ⟨by decide, (insert_numerical_sorted.1 .vec [5, 1, 4, 2] (by decide)).1,
   (insert_numerical_sorted.1 .vec [5, 1, 4, 2] (by decide)).2⟩

/-- C5: for both variants, `remove(i)` with `i < size()` shrinks the sequence
by exactly one and deletes exactly the element at position `i`, keeping the
remaining elements in relative order (`take i ++ drop (i+1)`); and the worked
example: applying plan `[1,2,0,0]` to `[1,2,4,5]` passes through
`[1,4,5]`, `[1,4]`, `[4]`, `[]` on both variants. -/
theorem remove_at_index :
    (∀ (vt : Variant) (l : List Int) (i : Nat), i < l.length →
        (seqRemove vt l i).length = l.length - 1
        ∧ seqRemove vt l i = l.take i ++ l.drop (i + 1))
    ∧ coreStates .vec [1, 2, 4, 5] (([1, 2, 0, 0] : List Nat).map Sum.inr) =
        [[1, 4, 5], [1, 4], [4], []]
    ∧ coreStates .lst [1, 2, 4, 5] (([1, 2, 0, 0] : List Nat).map Sum.inr) =
        [[1, 4, 5], [1, 4], [4], []] := by
  refine ⟨?_, by decide, by decide⟩
  intro vt l i hi
  simp only [seqRemove_funeq vt]
  exact ⟨length_eraseIdx_of_lt l i hi, eraseIdx_eq_take_drop l i⟩

/-- Witness for C5. -/
theorem remove_at_index_witness :
    (1 : Nat) < ([1, 2, 4, 5] : List Int).length
    ∧ (seqRemove .vec ([1, 2, 4, 5] : List Int) 1).length =
        ([1, 2, 4, 5] : List Int).length - 1
    ∧ seqRemove .vec ([1, 2, 4, 5] : List Int) 1 =
        ([1, 2, 4, 5] : List Int).take 1 ++ ([1, 2, 4, 5] : List Int).drop (1 + 1) :=
  ⟨by decide, (remove_at_index.1 .vec [1, 2, 4, 5] 1 (by decide)).1,
   (remove_at_index.1 .vec [1, 2, 4, 5] 1 (by decide)).2⟩

/-- C6 counterexample: `test_n_` (lvv.cpp:158-185) performs no unmeasured
warm-up execution.  At `num_vals = 4`, `num_runs = 3` the trace of
benchmark-core executions has its duration accumulated (`measured = true`)
for every execution: the measured-flags are `[true, true, true]`, not the
`false :: [true, true, true]` the claim requires (one unmeasured warm-up
followed by the measured repetitions). -/
theorem test_n_no_warmup_cex :
    (worker_events 4 3 (fun _ => rand0)).map Prod.snd = [true, true, true]
    ∧ (worker_events 4 3 (fun _ => rand0)).map Prod.snd ≠
        false :: [true, true, true] := by decide

/-- C6 (amended): for every N, repeat count and randomness, the measurement
loop executes the benchmark core exactly `num_runs` times, each with a freshly
generated removal plan, and every execution is measured (its duration
accumulated into the average); there is no unmeasured warm-up execution. -/
theorem test_n_all_runs_measured (num_vals num_runs : Nat)
    (rand : Nat → Nat → Nat → Nat → Nat) :
    (worker_events num_vals num_runs rand).length = num_runs
    ∧ (worker_events num_vals num_runs rand).all Prod.snd = true := by
  constructor
  · simp [worker_events]
  · simp [worker_events, List.all_eq_true]

/-- C7: requesting `num_vals` greater than the universe's size makes `test_n`
hit its checked precondition `assert(INT_SET.size() >= num_vals)`
(lvv.cpp:200), modelled as `none`: the run fails fatally and never truncates
the workload to the universe's size. -/
theorem test_n_asserts_on_large_n (univ : List Int) (num_vals num_runs : Nat)
    (rand_v rand_l : Nat → Nat → Nat → Nat → Nat) (dur_v dur_l : Nat → Nat)
    (h : univ.length < num_vals) :
    test_n univ num_vals num_runs rand_v rand_l dur_v dur_l = none := by
  simp [test_n, h]

/-- Witness for C7. -/
theorem test_n_asserts_on_large_n_witness :
    ([] : List Int).length < 1
    ∧ test_n [] 1 3 (fun _ => rand0) (fun _ => rand0) (fun _ => 0) (fun _ => 0) = none :=
  ⟨by decide,
   test_n_asserts_on_large_n [] 1 3 (fun _ => rand0) (fun _ => rand0)
     (fun _ => 0) (fun _ => 0) (by decide)⟩

/-- C8 counterexample: the command line `lvv 12abc` carries a non-integer
argument, yet the program does not write a usage message and exit non-zero:
`stoi` parses the integer prefix, `lvv_parse_args` accepts `12`, and `main`
proceeds to produce output (here with the timing rows abstracted away,
at least the CSV header is written). -/
theorem lvv_args_trailing_garbage :
    lvv_parse_args ["lvv", "12abc"] = Except.ok 12
    ∧ lvv_main ["lvv", "12abc"] (fun _ => []) =
        Except.ok ["x,vectime,listtime,vecgain"] := by decide

/-- C8 (amended): more than one positional argument yields the usage message
on the error stream and a non-zero exit; an argument parsing to a negative
value or to a value above `MAX_TESTS` yields an error message on the error
stream and a non-zero exit; an argument with no parsable integer prefix makes
`stoi` throw, terminating the process via an uncaught exception (non-zero,
but no usage message); any parse failure exits before the output file is
opened, so no partial output is produced.  However an argument with an
integer prefix followed by garbage (such as `"12abc"`) is accepted as that
prefix rather than rejected. -/
theorem lvv_parse_args_behaviour :
    (∀ (nm a b : String) (rest : List String),
        lvv_parse_args (nm :: a :: b :: rest) = Except.error CliError.usageMessage)
    ∧ (∀ (nm s : String) (t : Int), stoi s = Except.ok t → t < 0 →
        lvv_parse_args [nm, s] = Except.error CliError.negativeMessage)
    ∧ (∀ (nm s : String) (t : Int), stoi s = Except.ok t → t > MAX_TESTS →
        lvv_parse_args [nm, s] = Except.error CliError.tooLargeMessage)
    ∧ (∀ (nm s : String) (e : StoiError), stoi s = Except.error e →
        lvv_parse_args [nm, s] = Except.error CliError.uncaughtException)
    ∧ (∀ (argv : List String) (e : CliError) (rows : Nat → List String),
        lvv_parse_args argv = Except.error e → lvv_main argv rows = Except.error e)
    ∧ stoi "12abc" = Except.ok 12 := by
  refine ⟨?_, ?_, ?_, ?_, ?_, by decide⟩
  · intro nm a b rest; rfl
  · intro nm s t hs ht
    simp [lvv_parse_args, hs, ht]
  · intro nm s t hs ht
    have h0 : ¬ t < 0 := by
      simp only [MAX_TESTS] at ht
      omega
    simp [lvv_parse_args, hs, h0, ht]
  · intro nm s e hs
    simp [lvv_parse_args, hs]
  · intro argv e rows h
    simp [lvv_main, h, Except.map]

/-- Witness for C8's amended theorem. -/
theorem lvv_parse_args_behaviour_witness :
    stoi "-5" = Except.ok (-5)
    ∧ (-5 : Int) < 0
    ∧ lvv_parse_args ["lvv", "-5"] = Except.error CliError.negativeMessage
    ∧ stoi "abc" = Except.error StoiError.invalidArgument
    ∧ lvv_parse_args ["lvv", "abc"] = Except.error CliError.uncaughtException :=
  ⟨by decide, by decide,
   lvv_parse_args_behaviour.2.1 "lvv" "-5" (-5) (by decide) (by decide),
   by decide,
   lvv_parse_args_behaviour.2.2.2.1 "lvv" "abc" StoiError.invalidArgument (by decide)⟩

/-- C9: the two concurrently spawned workers of `test_n` do NOT own isolated
random-number streams: both reseed and draw from the single global
`std::mt19937 gen` (lvv.h:16) with no synchronization, so their generator
instances coincide. -/
theorem workers_share_one_generator :
    test_n_rng_sources.1 = test_n_rng_sources.2
    ∧ worker_rng_source .vec = RngSource.globalGen
    ∧ worker_rng_source .lst = RngSource.globalGen :=
  ⟨rfl, rfl, rfl⟩

/-- C10: the per-variant measurement divides the accumulated duration by the
repeat count with no guard: with `num_runs = 0` the mean computation
`avg / num_runs` is a division by zero (modelled as `none`), so the worker's
result is well-defined only under the unstated precondition
`num_runs ≥ 1`, under which the division yields the integer mean. -/
theorem mean_requires_positive_runs :
    (∀ (vt : Variant) (univ : List Int) (num_vals : Nat)
        (rand : Nat → Nat → Nat → Nat → Nat) (dur : Nat → Nat),
        worker vt univ num_vals 0 rand dur = none)
    ∧ (∀ acc : Nat, duration_div acc 0 = none)
    ∧ (∀ acc num_runs : Nat, 1 ≤ num_runs →
        duration_div acc num_runs = some (acc / num_runs)) := by
  refine ⟨?_, ?_, ?_⟩
  · intro vt univ nv rand dur
    simp [worker, duration_div]
  · intro acc
    simp [duration_div]
  · intro acc nr h
    have : nr ≠ 0 := by omega
    simp [duration_div, this]

/-- Witness for C10. -/
theorem mean_requires_positive_runs_witness :
    (1 : Nat) ≤ 3 ∧ duration_div 7 3 = some (7 / 3) :=
  ⟨by decide, mean_requires_positive_runs.2.2 7 3 (by decide)⟩
